import Mathlib

/-!
# Verification of the Spacedrive search-filter store

A shallow embedding of the search-filter state module
(`useSearchFilters` / `searchStore` and friends) together with proofs
of the specified properties.

The module keeps a registry of available filters and a selection set,
both JavaScript `Map`s from a composite string key to a filter record,
and derives backend query parameters from the selection.  JS `Map`s are
embedded as insertion-ordered association lists with unique keys.
-/

set_option autoImplicit false

namespace Spacedrive

universe u

variable {α : Type u} {β : Type u}

/-! ## Association-list model of a JavaScript Map -/

/-- First value stored under key `k`, mirroring `Map.prototype.get`. -/
def mapLookup (k : String) : List (String × α) → Option α
  | [] => none
  | e :: t => if e.1 = k then some e.2 else mapLookup k t

/-- Membership test, mirroring `Map.prototype.has`. -/
def mapContains (k : String) (m : List (String × α)) : Bool :=
  (mapLookup k m).isSome

/-- Insertion, mirroring `Map.prototype.set`: update in place if the key
exists, else append. -/
def mapSet (k : String) (v : α) : List (String × α) → List (String × α)
  | [] => [(k, v)]
  | e :: t => if e.1 = k then (k, v) :: t else e :: mapSet k v t

/-- Deletion, mirroring `Map.prototype.delete`: drop the entry stored
under `k`. -/
def mapErase (k : String) : List (String × α) → List (String × α)
  | [] => []
  | e :: t => if e.1 = k then t else e :: mapErase k t

/-- The keys of a map, in insertion order (`Map.prototype.keys`). -/
def mapKeys (m : List (String × α)) : List String :=
  m.map Prod.fst

/-- A well-formed JS map never stores the same key twice. -/
def keysNodup (m : List (String × α)) : Prop :=
  (m.map Prod.fst).Nodup

/-! ## Filter data model -/

/-- Modelled from the spec: the `FilterType` enumeration from `./Filters`
(not part of this fragment); the spec lists the categories Location, Tag,
Kind, Category and Hidden, each mapping to a distinct field of the derived
query shape. -/
inductive FilterType where
  | Location
  | Tag
  | Kind
  | Category
  | Hidden
deriving DecidableEq

/-- Modelled from the spec: the TS reverse enum mapping `FilterType[t]`
used by `getKey`, yielding the category's name as a string. -/
def filterTypeName : FilterType → String
  | .Location => "Location"
  | .Tag => "Tag"
  | .Kind => "Kind"
  | .Category => "Category"
  | .Hidden => "Hidden"

/-- The `Filter` record from the source: `FilterArgs` (`value`, `name`,
optional `icon`) together with a `type`.  `value` is kept as a string. -/
structure Filter where
  type : FilterType
  name : String
  value : String
  icon : Option String
deriving DecidableEq

/-- The `SetFilter` record: a `Filter` plus `condition` and
`canBeRemoved`. -/
structure SetFilter where
  toFilter : Filter
  condition : Bool
  canBeRemoved : Bool
deriving DecidableEq

/-- The composite key `FilterType[type]-name-value` built by `getKey`. -/
def getKey (f : Filter) : String :=
  filterTypeName f.type ++ "-" ++ f.name ++ "-" ++ f.value

/-! ## The store -/

/-- The mutable `searchStore` fields the filter operations touch. -/
structure Store where
  searchQuery : Option String
  registeredFilters : List (String × Filter)
  selectedFilters : List (String × SetFilter)
deriving DecidableEq

def emptyStore : Store :=
  { searchQuery := none, registeredFilters := [], selectedFilters := [] }

/-- Upsert into the selection under the composite key (`selectFilter`). -/
def selectFilter (st : Store) (f : Filter) (condition canBeRemoved : Bool) : Store :=
  { st with
      selectedFilters := mapSet (getKey f) ⟨f, condition, canBeRemoved⟩ st.selectedFilters }

/-- Deletion of the selection entry unless the stored entry has
`canBeRemoved = false` (`deselectFilter`, guarded by
`setFilter?.canBeRemoved !== false`). -/
def deselectFilter (st : Store) (f : Filter) : Store :=
  if (match mapLookup (getKey f) st.selectedFilters with
      | some sf => sf.canBeRemoved == false
      | none => false) then st
  else { st with selectedFilters := mapErase (getKey f) st.selectedFilters }

/-- Clearing of the query and the selection by `resetSearchStore` (the
registry is left alone). -/
def resetSearchStore (st : Store) : Store :=
  { st with searchQuery := none, selectedFilters := [] }

/-- The icon default of the fixed-filter path:
`if (!filter.icon) filter.icon = filter.name` (both a missing icon and
the empty string are falsy). -/
def fillIcon (f : Filter) : Filter :=
  if f.icon = none ∨ f.icon = some "" then { f with icon := some f.name } else f

/-- One iteration of the fixed-filter mount effect of `useSearchFilters`:
skip name-less filters, default the icon, register under `filter.value`
and select with `condition = true`, `canBeRemoved = false`. -/
def initFixedStep (st : Store) (f : Filter) : Store :=
  if f.name = "" then st
  else
    selectFilter
      { st with
          registeredFilters := mapSet (fillIcon f).value (fillIcon f) st.registeredFilters }
      (fillIcon f) true false

/-- The whole mount effect of `useSearchFilters`: reset the store, then
process the fixed filters (if any were given). -/
def initFixedFilters (st : Store) (fixedFilters : Option (List Filter)) : Store :=
  let st1 := resetSearchStore st
  match fixedFilters with
  | none => st1
  | some fs => fs.foldl initFixedStep st1

/-- One iteration of the `useSearchFilter` registration effect: register
under `getKey` only if the key is not already present. -/
def registerStep (st : Store) (f : Filter) : Store :=
  let key := getKey f
  if mapContains key st.registeredFilters then st
  else { st with registeredFilters := mapSet key f st.registeredFilters }

/-- The `useSearchFilter` registration effect over a filter list. -/
def registerFilters (st : Store) (filters : List Filter) : Store :=
  filters.foldl registerStep st

/-! ## Query derivation -/

/-- Modelled from the spec: the `inOrNotIn` accumulator value from
`./util` (not part of this fragment).  A field holds a single list
recorded either as "in" or as "not in". -/
inductive InOrNotIn (α : Type u) where
  | isIn (l : List α)
  | notIn (l : List α)
deriving DecidableEq

/-- Modelled from the spec: the accumulating helper `inOrNotIn` from
`./util`.  With `condition = true` the value is appended to an existing
"in" list (an absent field or a "not in" field starts a fresh "in"
list); symmetrically for `condition = false`. -/
def inOrNotIn (cur : Option (InOrNotIn α)) (v : α) (condition : Bool) : InOrNotIn α :=
  if condition then
    match cur with
    | some (.isIn l) => .isIn (l ++ [v])
    | _ => .isIn [v]
  else
    match cur with
    | some (.notIn l) => .notIn (l ++ [v])
    | _ => .notIn [v]

/-- Modelled from the spec: JS `parseInt` on a filter value — parse an
optional sign followed by leading decimal digits; `none` stands for
`NaN`. -/
def parseIntJS (s : String) : Option Int :=
  let digitsToNat : List Char → Nat :=
    fun l => l.foldl (fun n c => n * 10 + (c.toNat - 48)) 0
  match s.data with
  | [] => none
  | c :: t =>
    if c = '-' then
      match t.takeWhile Char.isDigit with
      | [] => none
      | ds => some (-(digitsToNat ds : Int))
    else
      match (c :: t).takeWhile Char.isDigit with
      | [] => none
      | ds => some (digitsToNat ds)

/-- The `ObjectFilterArgs` fields `mapFiltersToQueryParams` assigns. -/
structure ObjectFilterArgs where
  tags : Option (InOrNotIn (Option Int))
  kind : Option (InOrNotIn (Option Int))
  category : Option (InOrNotIn String)
deriving DecidableEq

/-- The `FilePathFilterArgs` fields `mapFiltersToQueryParams` assigns. -/
structure FilePathFilterArgs where
  locations : Option (InOrNotIn (Option Int))
  hidden : Option Bool
  object : Option ObjectFilterArgs
deriving DecidableEq

def emptyObject : ObjectFilterArgs :=
  { tags := none, kind := none, category := none }

def emptyPath : FilePathFilterArgs :=
  { locations := none, hidden := none, object := none }

/-- True exactly when no field has been assigned, so that
`Object.keys(objectFilters).length > 0` is false. -/
def objectIsEmpty : ObjectFilterArgs → Bool
  | ⟨none, none, none⟩ => true
  | _ => false

/-- The `switch` body of `mapFiltersToQueryParams.forEach`. -/
def applyFilter (acc : FilePathFilterArgs × ObjectFilterArgs) (f : SetFilter) :
    FilePathFilterArgs × ObjectFilterArgs :=
  match f.toFilter.type with
  | .Location =>
    ({ acc.1 with
        locations := some (inOrNotIn acc.1.locations (parseIntJS f.toFilter.value) f.condition) },
      acc.2)
  | .Tag =>
    (acc.1, { acc.2 with
        tags := some (inOrNotIn acc.2.tags (parseIntJS f.toFilter.value) f.condition) })
  | .Kind =>
    (acc.1, { acc.2 with
        kind := some (inOrNotIn acc.2.kind (parseIntJS f.toFilter.value) f.condition) })
  | .Category =>
    (acc.1, { acc.2 with
        category := some (inOrNotIn acc.2.category f.toFilter.value f.condition) })
  | .Hidden =>
    ({ acc.1 with hidden := some (f.toFilter.value == "true") }, acc.2)

/-- Fold of the selection through `applyFilter`, then nesting of a
non-empty `objectFilters` under `queryParams.object`
(`mapFiltersToQueryParams`). -/
def mapFiltersToQueryParams (filters : List SetFilter) :
    FilePathFilterArgs × ObjectFilterArgs :=
  let acc := filters.foldl applyFilter (emptyPath, emptyObject)
  let qp := if objectIsEmpty acc.2 then acc.1 else { acc.1 with object := some acc.2 }
  (qp, acc.2)

/-! ## Registered-filter text search -/

/-- Tests whether `needle` sits at the start of `hay`. -/
def leadsWith : List Char → List Char → Bool
  | [], _ => true
  | _ :: _, [] => false
  | a :: as, b :: bs => a == b && leadsWith as bs

/-- Tests whether `needle` occurs contiguously somewhere in `hay` (JS
`String.prototype.includes`). -/
def hasSub (needle : List Char) : List Char → Bool
  | [] => needle.isEmpty
  | c :: t => leadsWith needle (c :: t) || hasSub needle t

/-- Case-insensitive `hay.toLowerCase().includes(needle.toLowerCase())`. -/
def strIncludes (hay needle : String) : Bool :=
  hasSub (needle.data.map Char.toLower) (hay.data.map Char.toLower)

/-- Text search over the registry (`searchRegisteredFilters`): an empty
query gives the empty list, otherwise the registered entries whose key
contains the query case-insensitively, with their keys. -/
def searchRegisteredFilters (st : Store) (query : String) : List (String × Filter) :=
  if query = "" then []
  else
    let keys := (mapKeys st.registeredFilters).filter (fun k => strIncludes k query)
    keys.filterMap (fun k => (mapLookup k st.registeredFilters).map (fun f => (k, f)))

/-! ## Saved searches -/

/-- The filter rows of a fetched `SavedSearch`. -/
structure SavedFilter where
  filter_type : FilterType
  name : String
  value : String
  icon : Option String
deriving DecidableEq

/-- A fetched `SavedSearch`; only the fields `loadSearch` reads. -/
structure SavedSearch where
  id : Int
  filters : Option (List SavedFilter)
deriving DecidableEq

/-- The `Filter` built by `loadSearch` from a saved row
(`icon: icon || ''`). -/
def savedToFilter (sf : SavedFilter) : Filter :=
  { type := sf.filter_type, name := sf.name, value := sf.value,
    icon := some (sf.icon.getD "") }

/-- One iteration of `loadSearch`'s forEach: register under `getKey` and
select with `condition = true` and the default `canBeRemoved = true`. -/
def loadStep (st : Store) (sf : SavedFilter) : Store :=
  selectFilter
    { st with
        registeredFilters :=
          mapSet (getKey (savedToFilter sf)) (savedToFilter sf) st.registeredFilters }
    (savedToFilter sf) true true

/-- Loading of a saved search by id (`loadSearch`): find the saved
search; if found, clear the selection and load its filter rows, else
leave the store alone. -/
def loadSearch (searches : List SavedSearch) (id : Int) (st : Store) : Store :=
  match searches.find? (fun s => s.id == id) with
  | none => st
  | some s =>
    let st1 : Store := { st with selectedFilters := [] }
    match s.filters with
    | none => st1
    | some fs => fs.foldl loadStep st1

/-! ## Lemmas about the map model -/

theorem mapLookup_set (k k2 : String) (v : α) (m : List (String × α)) :
    mapLookup k (mapSet k2 v m) = if k2 = k then some v else mapLookup k m := by
  induction m with
  | nil => by_cases h : k2 = k <;> simp [mapSet, mapLookup, h]
  | cons e t ih =>
    obtain ⟨ek, ev⟩ := e
    by_cases h : ek = k2
    · by_cases hk : k2 = k <;> simp [mapSet, mapLookup, h, hk]
    · by_cases hk : k2 = k
      · subst hk
        simp [mapSet, mapLookup, h, ih]
      · by_cases he : ek = k
        · subst he
          simp [mapSet, mapLookup, h, hk, ih]
        · simp [mapSet, mapLookup, h, hk, he, ih]

theorem mapLookup_erase_ne (k k2 : String) (m : List (String × α)) (h : k2 ≠ k) :
    mapLookup k (mapErase k2 m) = mapLookup k m := by
  induction m with
  | nil => simp [mapErase]
  | cons e t ih =>
    obtain ⟨ek, ev⟩ := e
    by_cases he : ek = k2
    · have hek : ¬ek = k := by rw [he]; exact h
      simp [mapErase, mapLookup, he, hek, h]
    · by_cases hek : ek = k <;> simp [mapErase, mapLookup, he, hek, ih, Ne.symm h]

theorem mapContains_set_of (k k2 : String) (v : α) (m : List (String × α))
    (h : mapContains k m = true) : mapContains k (mapSet k2 v m) = true := by
  unfold mapContains at *
  rw [mapLookup_set]
  by_cases hk : k2 = k <;> simp [hk, h]

theorem mapLookup_mem (k : String) (v : α) (m : List (String × α))
    (h : mapLookup k m = some v) : (k, v) ∈ m := by
  induction m with
  | nil => simp [mapLookup] at h
  | cons e t ih =>
    obtain ⟨ek, ev⟩ := e
    by_cases he : ek = k
    · subst he
      simp only [mapLookup, if_pos] at h
      cases h
      exact List.mem_cons_self _ _
    · simp only [mapLookup, he, if_neg, not_false_iff] at h
      exact List.mem_cons_of_mem _ (ih h)

theorem mem_mapLookup (k : String) (v : α) (m : List (String × α))
    (hn : keysNodup m) (h : (k, v) ∈ m) : mapLookup k m = some v := by
  induction m with
  | nil => simp at h
  | cons e t ih =>
    rcases List.mem_cons.1 h with h1 | h1
    · subst h1
      simp [mapLookup]
    · have hk : e.1 ≠ k := by
        intro hek
        have : k ∈ t.map Prod.fst := List.mem_map.2 ⟨(k, v), h1, rfl⟩
        have := (List.nodup_cons.1 hn).1
        rw [hek] at this
        exact this ‹k ∈ t.map Prod.fst›
      have ht : keysNodup t := (List.nodup_cons.1 hn).2
      simp [mapLookup, hk, ih ht h1]

theorem mem_keys_lookup (k : String) (m : List (String × α)) (h : k ∈ mapKeys m) :
    ∃ v, mapLookup k m = some v := by
  induction m with
  | nil => simp [mapKeys] at h
  | cons e t ih =>
    by_cases he : e.1 = k
    · exact ⟨e.2, by simp [mapLookup, he]⟩
    · rcases List.mem_map.1 h with ⟨p, hp, hpk⟩
      rcases List.mem_cons.1 hp with h1 | h1
      · exact absurd (h1 ▸ hpk) he
      · rcases ih (List.mem_map.2 ⟨p, h1, hpk⟩) with ⟨v, hv⟩
        exact ⟨v, by simp [mapLookup, he, hv]⟩

theorem mapLookup_eq_none (k : String) (m : List (String × α)) (h : k ∉ mapKeys m) :
    mapLookup k m = none := by
  cases hl : mapLookup k m with
  | none => rfl
  | some v => exact absurd (List.mem_map.2 ⟨(k, v), mapLookup_mem k v m hl, rfl⟩) h

theorem mapLookup_erase_self (k : String) (m : List (String × α)) (hn : keysNodup m) :
    mapLookup k (mapErase k m) = none := by
  induction m with
  | nil => simp [mapErase, mapLookup]
  | cons e t ih =>
    obtain ⟨ek, ev⟩ := e
    by_cases he : ek = k
    · subst he
      simp only [mapErase, if_pos rfl]
      exact mapLookup_eq_none ek t (List.nodup_cons.1 hn).1
    · simp only [mapErase, mapLookup, he, if_neg, not_false_iff]
      exact ih (List.nodup_cons.1 hn).2

/-! ## Concrete filters and stores used as inputs -/

def homeFilter : Filter := ⟨.Location, "Home", "1", none⟩

def staleStore : Store :=
  { searchQuery := none, registeredFilters := [("stale", homeFilter)],
    selectedFilters := [] }

def protectedStore : Store :=
  { searchQuery := none, registeredFilters := [],
    selectedFilters := [(getKey homeFilter, ⟨homeFilter, true, false⟩)] }

def slashFilter1 : Filter := ⟨.Location, "a-b", "c", none⟩

def slashFilter2 : Filter := ⟨.Location, "a", "b-c", none⟩

/-- A selection entry under `key` exists and is marked non-removable. -/
def entryProtected (st : Store) (key : String) : Prop :=
  ∃ sf, mapLookup key st.selectedFilters = some sf ∧ sf.canBeRemoved = false

/-! ## Claim C1 -/

/-- Claim C1: the registry-containment invariant fails on the code.  After the
fixed-filter mount effect runs on the fixed filter
`{type: Location, name: "Home", value: "1"}`, the composite key
`getKey` = `"Location-Home-1"` is present in the selection but absent
from the registry, because the effect registers under `filter.value`
(`"1"`) while selecting under `getKey`; moreover a bare `selectFilter`
registers nothing at all. -/
theorem C1_fixed_filter_registry_bug :
    mapContains (getKey homeFilter)
      (initFixedFilters emptyStore (some [homeFilter])).selectedFilters = true
    ∧ mapContains (getKey homeFilter)
      (initFixedFilters emptyStore (some [homeFilter])).registeredFilters = false
    ∧ mapContains "1"
      (initFixedFilters emptyStore (some [homeFilter])).registeredFilters = true
    ∧ (selectFilter emptyStore homeFilter true true).registeredFilters = []
    ∧ mapContains (getKey homeFilter)
      (selectFilter emptyStore homeFilter true true).selectedFilters = true := by
  decide

/-! ## Claim C3 -/

/-- Claim C3 counterexample: a protected (`canBeRemoved = false`) selection
entry is removed by `resetSearchStore` and by `loadSearch` of an
existing saved search, so the claimed "never removed by deselectFilter,
loadSearch or resetSearchStore" property fails as stated. -/
theorem C3_reset_removes_protected :
    mapLookup (getKey homeFilter) protectedStore.selectedFilters
      = some ⟨homeFilter, true, false⟩
    ∧ (resetSearchStore protectedStore).selectedFilters = []
    ∧ (loadSearch [⟨7, some []⟩] 7 protectedStore).selectedFilters = [] := by
  decide

/-- Claim C3, amended: a selection entry with `canBeRemoved = false` survives
any `deselectFilter` call unchanged; `loadSearch` of a found search and
`resetSearchStore` clear the whole selection, protected entries
included. -/
theorem C3_deselect_preserves_protected (st : Store) (g : Filter) (k : String)
    (sf : SetFilter) (hl : mapLookup k st.selectedFilters = some sf)
    (hp : sf.canBeRemoved = false) :
    mapLookup k (deselectFilter st g).selectedFilters = some sf := by
  unfold deselectFilter
  by_cases hk : getKey g = k
  · rw [hk, hl]
    simp [hp, hl]
  · split
    · exact hl
    · exact (mapLookup_erase_ne k (getKey g) st.selectedFilters hk).trans hl

/-- Claim C3 witness: deselecting the protected home-location entry leaves it
in place. -/
theorem C3_deselect_preserves_protected_witness :
    mapLookup (getKey homeFilter) (deselectFilter protectedStore homeFilter).selectedFilters
      = some ⟨homeFilter, true, false⟩ :=
  C3_deselect_preserves_protected protectedStore homeFilter (getKey homeFilter)
    ⟨homeFilter, true, false⟩ (by decide) (by decide)

/-! ## Claim C4 -/

/-- Claim C4: the `deselectFilter` contract.  When the stored entry under the
filter's composite key is protected the call leaves the store untouched
(a silent no-op); otherwise it is exactly the deletion of that key, and
under well-formed keys the entry is gone afterwards. -/
theorem C4_deselectFilter_contract (st : Store) (f : Filter) :
    (entryProtected st (getKey f) → deselectFilter st f = st)
    ∧ (¬entryProtected st (getKey f) →
        deselectFilter st f =
          { st with selectedFilters := mapErase (getKey f) st.selectedFilters })
    ∧ (¬entryProtected st (getKey f) → keysNodup st.selectedFilters →
        mapLookup (getKey f) (deselectFilter st f).selectedFilters = none) := by
  have hcond : (match mapLookup (getKey f) st.selectedFilters with
      | some sf => sf.canBeRemoved == false
      | none => false) = true ↔ entryProtected st (getKey f) := by
    cases h : mapLookup (getKey f) st.selectedFilters with
    | none => simp [entryProtected, h]
    | some sf => simp [entryProtected, h]
  refine ⟨fun hp => ?_, fun hp => ?_, fun hp hn => ?_⟩
  · unfold deselectFilter
    rw [if_pos (hcond.2 hp)]
  · unfold deselectFilter
    rw [if_neg (fun hc => hp (hcond.1 hc))]
  · unfold deselectFilter
    rw [if_neg (fun hc => hp (hcond.1 hc))]
    exact mapLookup_erase_self (getKey f) st.selectedFilters hn

/-- Claim C4 witness: on the protected store the call is a no-op; on a store
with a removable entry the entry is removed. -/
theorem C4_deselectFilter_contract_witness :
    deselectFilter protectedStore homeFilter = protectedStore
    ∧ mapLookup (getKey homeFilter)
        (deselectFilter (selectFilter emptyStore homeFilter true true)
          homeFilter).selectedFilters = none := by
  constructor
  · exact (C4_deselectFilter_contract protectedStore homeFilter).1
      ⟨⟨homeFilter, true, false⟩, by decide, by decide⟩
  · refine (C4_deselectFilter_contract (selectFilter emptyStore homeFilter true true)
      homeFilter).2.2 ?_ ?_
    · rintro ⟨sf, hsf, hcbr⟩
      have heval : mapLookup (getKey homeFilter)
          (selectFilter emptyStore homeFilter true true).selectedFilters
          = some ⟨homeFilter, true, true⟩ := by decide
      rw [heval] at hsf
      rw [(Option.some.inj hsf).symm] at hcbr
      exact absurd hcbr (by decide)
    · show (((selectFilter emptyStore homeFilter true true).selectedFilters).map
        Prod.fst).Nodup
      decide

/-! ## Claim C10 -/

/-- Claim C10: `getKey` is not injective — the filters
`(Location, "a-b", "c")` and `(Location, "a", "b-c")` are distinct but
share the composite key `"Location-a-b-c"`; selecting the second
overwrites the selection entry of the first, and registering both
leaves a single registry entry. -/
theorem C10_getKey_collision :
    getKey slashFilter1 = getKey slashFilter2
    ∧ slashFilter1 ≠ slashFilter2
    ∧ (selectFilter (selectFilter emptyStore slashFilter1 true true)
        slashFilter2 true true).selectedFilters
        = [(getKey slashFilter1, ⟨slashFilter2, true, true⟩)]
    ∧ (registerFilters emptyStore [slashFilter1, slashFilter2]).registeredFilters
        = [(getKey slashFilter1, slashFilter1)] := by
  decide

/-! ## Generic fold-invariant helpers -/

theorem foldl_pres {σ A : Type} (step : σ → A → σ) (P : σ → Prop) (l : List A)
    (hstep : ∀ s a, a ∈ l → P s → P (step s a)) (s : σ) (hs : P s) :
    P (l.foldl step s) := by
  induction l generalizing s with
  | nil => exact hs
  | cons a t ih =>
    exact ih (fun s2 b hb => hstep s2 b (List.mem_cons_of_mem _ hb)) _
      (hstep s a (List.mem_cons_self _ _) hs)

theorem foldl_mem_establish {σ A : Type} (step : σ → A → σ) (P : σ → Prop) (l : List A)
    (a : A) (ha : a ∈ l) (hest : ∀ s, P (step s a))
    (hpres : ∀ s b, b ∈ l → P s → P (step s b)) (s : σ) :
    P (l.foldl step s) := by
  induction l generalizing s with
  | nil => cases ha
  | cons b t ih =>
    rcases List.mem_cons.1 ha with h1 | h1
    · subst h1
      exact foldl_pres step P t
        (fun s2 c hc => hpres s2 c (List.mem_cons_of_mem _ hc)) _ (hest s)
    · exact ih h1 (fun s2 c hc => hpres s2 c (List.mem_cons_of_mem _ hc)) _

/-- The selection holds an entry under `key` with the given `condition`
and `canBeRemoved` flags. -/
def selEntryAt (key : String) (c r : Bool) (st : Store) : Prop :=
  ∃ sf, mapLookup key st.selectedFilters = some sf
    ∧ sf.condition = c ∧ sf.canBeRemoved = r

/-! ## Per-step lemmas about the fixed-filter mount effect -/

theorem initFixedStep_query (st : Store) (f : Filter) :
    (initFixedStep st f).searchQuery = st.searchQuery := by
  by_cases h : f.name = "" <;> simp [initFixedStep, selectFilter, h]

theorem initFixedStep_reg_mono (k : String) (st : Store) (f : Filter)
    (h : mapContains k st.registeredFilters = true) :
    mapContains k (initFixedStep st f).registeredFilters = true := by
  by_cases hn : f.name = ""
  · simpa [initFixedStep, hn] using h
  · simp only [initFixedStep, if_neg hn]
    exact mapContains_set_of _ _ _ _ h

theorem initFixedStep_sel_pres (key : String) (st : Store) (f : Filter)
    (h : selEntryAt key true false st) :
    selEntryAt key true false (initFixedStep st f) := by
  by_cases hn : f.name = ""
  · simpa [initFixedStep, hn] using h
  · simp only [initFixedStep, if_neg hn]
    rcases h with ⟨sf, hsf, hc, hr⟩
    show ∃ sf2, mapLookup key
      (mapSet (getKey (fillIcon f)) ⟨fillIcon f, true, false⟩ st.selectedFilters)
      = some sf2 ∧ sf2.condition = true ∧ sf2.canBeRemoved = false
    rw [mapLookup_set]
    by_cases hk : getKey (fillIcon f) = key
    · exact ⟨⟨fillIcon f, true, false⟩, by rw [if_pos hk], rfl, rfl⟩
    · rw [if_neg hk]
      exact ⟨sf, hsf, hc, hr⟩

theorem initFixedStep_establish (st : Store) (f : Filter) (hn : f.name ≠ "") :
    mapContains (fillIcon f).value (initFixedStep st f).registeredFilters = true
    ∧ selEntryAt (getKey (fillIcon f)) true false (initFixedStep st f) := by
  simp only [initFixedStep, if_neg hn]
  constructor
  · show mapContains (fillIcon f).value
      (mapSet (fillIcon f).value (fillIcon f) st.registeredFilters) = true
    unfold mapContains
    rw [mapLookup_set, if_pos rfl]
    rfl
  · show selEntryAt (getKey (fillIcon f)) true false
      (selectFilter _ (fillIcon f) true false)
    refine ⟨⟨fillIcon f, true, false⟩, ?_, rfl, rfl⟩
    show mapLookup (getKey (fillIcon f))
      (mapSet (getKey (fillIcon f)) ⟨fillIcon f, true, false⟩ st.selectedFilters)
      = some ⟨fillIcon f, true, false⟩
    rw [mapLookup_set, if_pos rfl]

theorem initFixedStep_complete (fs : List Filter) (st : Store) (f : Filter) (hf : f ∈ fs)
    (h : ∀ k sf, mapLookup k st.selectedFilters = some sf →
      ∃ g ∈ fs, g.name ≠ "" ∧ sf = ⟨fillIcon g, true, false⟩ ∧ k = getKey (fillIcon g)) :
    ∀ k sf, mapLookup k (initFixedStep st f).selectedFilters = some sf →
      ∃ g ∈ fs, g.name ≠ "" ∧ sf = ⟨fillIcon g, true, false⟩ ∧ k = getKey (fillIcon g) := by
  by_cases hn : f.name = ""
  · simpa [initFixedStep, hn] using h
  · simp only [initFixedStep, if_neg hn]
    intro k sf hsf
    rw [show (selectFilter
        { st with
            registeredFilters := mapSet (fillIcon f).value (fillIcon f) st.registeredFilters }
        (fillIcon f) true false).selectedFilters
      = mapSet (getKey (fillIcon f)) ⟨fillIcon f, true, false⟩ st.selectedFilters
      from rfl] at hsf
    rw [mapLookup_set] at hsf
    by_cases hk : getKey (fillIcon f) = k
    · rw [if_pos hk] at hsf
      cases hsf
      exact ⟨f, hf, hn, rfl, hk.symm⟩
    · rw [if_neg hk] at hsf
      exact h k sf hsf

/-! ## Claim C2 -/

/-- Claim C2 counterexample: the mount effect does not clear the prior
registry — a stale registration survives `initFixedFilters`, so
the claim's "first clears both the prior Selection and the prior
Registry" fails as stated. -/
theorem C2_registry_not_cleared :
    staleStore.registeredFilters ≠ []
    ∧ (initFixedFilters staleStore (some [homeFilter])).registeredFilters
        = [("stale", homeFilter), ("1", fillIcon homeFilter)]
    ∧ mapContains "stale"
        (initFixedFilters staleStore (some [homeFilter])).registeredFilters = true := by
  decide

/-- Claim C2, amended: the mount effect clears the prior search query and
Selection but leaves the prior Registry in place; then for each fixed
filter with a non-empty name it fills a missing (or empty) icon from
the filter's name, registers the icon-filled filter under
`filter.value`, and selects it under `getKey` with `condition = true`
and `canBeRemoved = false`; afterwards every selection entry stems from
such a fixed filter. -/
theorem C2_fixed_filter_initialization (st : Store) (fs : List Filter) (st2 : Store)
    (hst2 : st2 = initFixedFilters st (some fs)) :
    st2.searchQuery = none
    ∧ (∀ k, mapContains k st.registeredFilters = true →
        mapContains k st2.registeredFilters = true)
    ∧ (∀ f ∈ fs, f.name ≠ "" →
        mapContains (fillIcon f).value st2.registeredFilters = true
        ∧ selEntryAt (getKey (fillIcon f)) true false st2)
    ∧ (∀ k sf, mapLookup k st2.selectedFilters = some sf →
        ∃ g ∈ fs, g.name ≠ "" ∧ sf = ⟨fillIcon g, true, false⟩ ∧ k = getKey (fillIcon g)) := by
  subst hst2
  show _ ∧ _ ∧ _ ∧ _
  refine ⟨?_, ?_, ?_, ?_⟩
  · exact foldl_pres initFixedStep (fun s => s.searchQuery = none) fs
      (fun s a _ hs => (initFixedStep_query s a).trans hs) (resetSearchStore st) rfl
  · intro k hk
    exact foldl_pres initFixedStep
      (fun s => mapContains k s.registeredFilters = true) fs
      (fun s a _ hs => initFixedStep_reg_mono k s a hs) (resetSearchStore st) hk
  · intro f hf hn
    constructor
    · exact foldl_mem_establish initFixedStep
        (fun s => mapContains (fillIcon f).value s.registeredFilters = true) fs f hf
        (fun s => (initFixedStep_establish s f hn).1)
        (fun s b _ hs => initFixedStep_reg_mono _ s b hs) (resetSearchStore st)
    · exact foldl_mem_establish initFixedStep
        (selEntryAt (getKey (fillIcon f)) true false) fs f hf
        (fun s => (initFixedStep_establish s f hn).2)
        (fun s b _ hs => initFixedStep_sel_pres _ s b hs) (resetSearchStore st)
  · exact foldl_pres initFixedStep
      (fun s => ∀ k sf, mapLookup k s.selectedFilters = some sf →
        ∃ g ∈ fs, g.name ≠ "" ∧ sf = ⟨fillIcon g, true, false⟩ ∧ k = getKey (fillIcon g))
      fs (fun s a ha hs => initFixedStep_complete fs s a ha hs) (resetSearchStore st)
      (fun k sf hsf => by simp [resetSearchStore, mapLookup] at hsf)

/-- Claim C2 witness: initializing the stale store with the home-location
fixed filter keeps the stale registration, registers under `"1"` and
selects the icon-filled filter as non-removable. -/
theorem C2_fixed_filter_initialization_witness :
    mapContains "stale"
      (initFixedFilters staleStore (some [homeFilter])).registeredFilters = true
    ∧ selEntryAt (getKey (fillIcon homeFilter)) true false
      (initFixedFilters staleStore (some [homeFilter])) := by
  have h := C2_fixed_filter_initialization staleStore [homeFilter]
    (initFixedFilters staleStore (some [homeFilter])) rfl
  exact ⟨h.2.1 "stale" (by decide),
    (h.2.2.1 homeFilter (List.mem_cons_self _ _) (by decide)).2⟩

/-! ## Claim C8 -/

theorem registerStep_lookup_pres (k : String) (st : Store) (f : Filter)
    (h : mapContains k st.registeredFilters = true) :
    mapLookup k (registerStep st f).registeredFilters
      = mapLookup k st.registeredFilters := by
  unfold registerStep
  by_cases hc : mapContains (getKey f) st.registeredFilters
  · rw [if_pos hc]
  · rw [if_neg hc]
    show mapLookup k (mapSet (getKey f) f st.registeredFilters) = _
    rw [mapLookup_set, if_neg]
    intro hkk
    rw [hkk] at hc
    exact hc h

theorem registerStep_contains_mono (k : String) (st : Store) (f : Filter)
    (h : mapContains k st.registeredFilters = true) :
    mapContains k (registerStep st f).registeredFilters = true := by
  unfold mapContains
  rw [registerStep_lookup_pres k st f h]
  exact h

theorem registerStep_establish (st : Store) (f : Filter) :
    mapContains (getKey f) (registerStep st f).registeredFilters = true := by
  unfold registerStep
  by_cases hc : mapContains (getKey f) st.registeredFilters
  · rw [if_pos hc]
    exact hc
  · rw [if_neg hc]
    show mapContains (getKey f) (mapSet (getKey f) f st.registeredFilters) = true
    unfold mapContains
    rw [mapLookup_set, if_pos rfl]
    rfl

theorem registerFilters_id_of_contained (st : Store) (F : List Filter)
    (h : ∀ f ∈ F, mapContains (getKey f) st.registeredFilters = true) :
    registerFilters st F = st := by
  induction F generalizing st with
  | nil => rfl
  | cons a t ih =>
    show registerFilters (registerStep st a) t = st
    have ha : registerStep st a = st := by
      unfold registerStep
      rw [if_pos (h a (List.mem_cons_self _ _))]
    rw [ha]
    exact ih st (fun f hf => h f (List.mem_cons_of_mem _ hf))

/-- Claim C8: registration is idempotent — running the `useSearchFilter`
registration effect a second time over the same filter list leaves the
store exactly as after the first run — and it never overwrites an
existing registry entry. -/
theorem C8_registration_idempotent (st : Store) (F : List Filter) :
    registerFilters (registerFilters st F) F = registerFilters st F
    ∧ ∀ k, mapContains k st.registeredFilters = true →
        mapLookup k (registerFilters st F).registeredFilters
          = mapLookup k st.registeredFilters := by
  constructor
  · refine registerFilters_id_of_contained _ F (fun f hf => ?_)
    exact foldl_mem_establish registerStep
      (fun s => mapContains (getKey f) s.registeredFilters = true) F f hf
      (fun s => registerStep_establish s f)
      (fun s b _ hs => registerStep_contains_mono _ s b hs) st
  · intro k hk
    induction F generalizing st with
    | nil => rfl
    | cons a t ih =>
      show mapLookup k (registerFilters (registerStep st a) t).registeredFilters = _
      rw [ih (registerStep st a) (registerStep_contains_mono k st a hk)]
      exact registerStep_lookup_pres k st a hk

/-- Claim C8 witness: a pre-existing registration survives a registration run
with its stored value intact. -/
theorem C8_registration_idempotent_witness :
    mapLookup "stale" (registerFilters staleStore [homeFilter]).registeredFilters
      = mapLookup "stale" staleStore.registeredFilters :=
  (C8_registration_idempotent staleStore [homeFilter]).2 "stale" (by decide)

/-! ## Claim C9 -/

def workRow : SavedFilter := ⟨.Tag, "Work", "3", none⟩

theorem loadStep_sel_pres (key : String) (st : Store) (sv : SavedFilter)
    (h : selEntryAt key true true st) : selEntryAt key true true (loadStep st sv) := by
  rcases h with ⟨sf, hsf, hc, hr⟩
  show ∃ sf2, mapLookup key
    (mapSet (getKey (savedToFilter sv)) ⟨savedToFilter sv, true, true⟩ st.selectedFilters)
    = some sf2 ∧ sf2.condition = true ∧ sf2.canBeRemoved = true
  rw [mapLookup_set]
  by_cases hk : getKey (savedToFilter sv) = key
  · exact ⟨⟨savedToFilter sv, true, true⟩, by rw [if_pos hk], rfl, rfl⟩
  · rw [if_neg hk]
    exact ⟨sf, hsf, hc, hr⟩

theorem loadStep_sel_establish (st : Store) (sv : SavedFilter) :
    selEntryAt (getKey (savedToFilter sv)) true true (loadStep st sv) := by
  refine ⟨⟨savedToFilter sv, true, true⟩, ?_, rfl, rfl⟩
  show mapLookup (getKey (savedToFilter sv))
    (mapSet (getKey (savedToFilter sv)) ⟨savedToFilter sv, true, true⟩ st.selectedFilters)
    = some ⟨savedToFilter sv, true, true⟩
  rw [mapLookup_set, if_pos rfl]

theorem loadStep_reg_mono (k : String) (st : Store) (sv : SavedFilter)
    (h : mapContains k st.registeredFilters = true) :
    mapContains k (loadStep st sv).registeredFilters = true := by
  show mapContains k
    (mapSet (getKey (savedToFilter sv)) (savedToFilter sv) st.registeredFilters) = true
  exact mapContains_set_of _ _ _ _ h

theorem loadStep_reg_establish (st : Store) (sv : SavedFilter) :
    mapContains (getKey (savedToFilter sv)) (loadStep st sv).registeredFilters = true := by
  show mapContains (getKey (savedToFilter sv))
    (mapSet (getKey (savedToFilter sv)) (savedToFilter sv) st.registeredFilters) = true
  unfold mapContains
  rw [mapLookup_set, if_pos rfl]
  rfl

theorem loadStep_complete (fs : List SavedFilter) (st : Store) (sv : SavedFilter)
    (hsv : sv ∈ fs)
    (h : ∀ k sf, mapLookup k st.selectedFilters = some sf →
      ∃ sv2 ∈ fs, sf = ⟨savedToFilter sv2, true, true⟩ ∧ k = getKey (savedToFilter sv2)) :
    ∀ k sf, mapLookup k (loadStep st sv).selectedFilters = some sf →
      ∃ sv2 ∈ fs, sf = ⟨savedToFilter sv2, true, true⟩ ∧ k = getKey (savedToFilter sv2) := by
  intro k sf hsf
  rw [show (loadStep st sv).selectedFilters
    = mapSet (getKey (savedToFilter sv)) ⟨savedToFilter sv, true, true⟩ st.selectedFilters
    from rfl] at hsf
  rw [mapLookup_set] at hsf
  by_cases hk : getKey (savedToFilter sv) = k
  · rw [if_pos hk] at hsf
    cases hsf
    exact ⟨sv, hsv, rfl, hk.symm⟩
  · rw [if_neg hk] at hsf
    exact h k sf hsf

theorem loadStep_none_pres (k : String) (st : Store) (sv : SavedFilter)
    (hk : k ≠ getKey (savedToFilter sv))
    (h : mapLookup k st.selectedFilters = none) :
    mapLookup k (loadStep st sv).selectedFilters = none := by
  show mapLookup k
    (mapSet (getKey (savedToFilter sv)) ⟨savedToFilter sv, true, true⟩ st.selectedFilters)
    = none
  rw [mapLookup_set, if_neg (fun hkk => hk hkk.symm)]
  exact h

/-- Claim C9: `loadSearch` replacement semantics.  When no fetched search has
the requested id the store is untouched.  When one is found, afterwards
every selection entry is one of that search's filter rows mapped
through `savedToFilter` (so `filter_type/name/value/icon` are mapped
with a missing icon defaulted to `""`), selected under `getKey` with
`condition = true` and `canBeRemoved = true`; every row is present and
registered; and every key not derived from a row — in particular any
filter selected before the load — is absent. -/
theorem C9_loadSearch_replacement (searches : List SavedSearch) (id : Int) (st : Store) :
    (searches.find? (fun s => s.id == id) = none → loadSearch searches id st = st)
    ∧ (∀ s, searches.find? (fun s => s.id == id) = some s →
        (s.filters = none → (loadSearch searches id st).selectedFilters = [])
        ∧ (∀ fs, s.filters = some fs →
            (∀ k sf, mapLookup k (loadSearch searches id st).selectedFilters = some sf →
              ∃ sv ∈ fs, sf = ⟨savedToFilter sv, true, true⟩
                ∧ k = getKey (savedToFilter sv))
            ∧ (∀ sv ∈ fs,
                selEntryAt (getKey (savedToFilter sv)) true true (loadSearch searches id st))
            ∧ (∀ sv ∈ fs, mapContains (getKey (savedToFilter sv))
                (loadSearch searches id st).registeredFilters = true)
            ∧ (∀ k, (∀ sv ∈ fs, k ≠ getKey (savedToFilter sv)) →
                mapLookup k (loadSearch searches id st).selectedFilters = none))) := by
  constructor
  · intro h
    unfold loadSearch
    rw [h]
  · intro s hs
    constructor
    · intro hnone
      simp only [loadSearch, hs, hnone]
    · intro fs hfs
      have hload : loadSearch searches id st
          = fs.foldl loadStep { st with selectedFilters := [] } := by
        simp only [loadSearch, hs, hfs]
      rw [hload]
      refine ⟨?_, ?_, ?_, ?_⟩
      · exact foldl_pres loadStep
          (fun s2 => ∀ k sf, mapLookup k s2.selectedFilters = some sf →
            ∃ sv ∈ fs, sf = ⟨savedToFilter sv, true, true⟩ ∧ k = getKey (savedToFilter sv))
          fs (fun s2 a ha h2 => loadStep_complete fs s2 a ha h2) _
          (fun k sf hsf => by simp [mapLookup] at hsf)
      · intro sv hsv
        exact foldl_mem_establish loadStep
          (selEntryAt (getKey (savedToFilter sv)) true true) fs sv hsv
          (fun s2 => loadStep_sel_establish s2 sv)
          (fun s2 b _ h2 => loadStep_sel_pres _ s2 b h2) _
      · intro sv hsv
        exact foldl_mem_establish loadStep
          (fun s2 => mapContains (getKey (savedToFilter sv)) s2.registeredFilters = true)
          fs sv hsv (fun s2 => loadStep_reg_establish s2 sv)
          (fun s2 b _ h2 => loadStep_reg_mono _ s2 b h2) _
      · intro k hk
        exact foldl_pres loadStep
          (fun s2 => mapLookup k s2.selectedFilters = none) fs
          (fun s2 a ha h2 => loadStep_none_pres k s2 a (hk a ha) h2) _ rfl

/-- Claim C9 witness: loading the saved search `{id := 7}` over the protected
store selects its Tag row and drops the previously selected
home-location entry. -/
theorem C9_loadSearch_replacement_witness :
    selEntryAt (getKey (savedToFilter workRow)) true true
      (loadSearch [⟨7, some [workRow]⟩] 7 protectedStore)
    ∧ mapLookup (getKey homeFilter)
        (loadSearch [⟨7, some [workRow]⟩] 7 protectedStore).selectedFilters = none := by
  have h := (C9_loadSearch_replacement [⟨7, some [workRow]⟩] 7 protectedStore).2
    ⟨7, some [workRow]⟩ (by decide)
  have h2 := h.2 [workRow] rfl
  refine ⟨h2.2.1 workRow (List.mem_cons_self _ _), ?_⟩
  refine h2.2.2.2 (getKey homeFilter) (fun sv hsv => ?_)
  rcases List.mem_singleton.1 hsv with rfl
  decide

/-! ## Per-field views of the query derivation -/

def isLocationF (f : SetFilter) : Bool :=
  match f.toFilter.type with
  | .Location => true
  | _ => false

def isTagF (f : SetFilter) : Bool :=
  match f.toFilter.type with
  | .Tag => true
  | _ => false

def isKindF (f : SetFilter) : Bool :=
  match f.toFilter.type with
  | .Kind => true
  | _ => false

def isCategoryF (f : SetFilter) : Bool :=
  match f.toFilter.type with
  | .Category => true
  | _ => false

def isHiddenF (f : SetFilter) : Bool :=
  match f.toFilter.type with
  | .Hidden => true
  | _ => false

/-- Repeated application of `inOrNotIn` over value/condition pairs. -/
def accFold (cur : Option (InOrNotIn α)) (ps : List (α × Bool)) : Option (InOrNotIn α) :=
  ps.foldl (fun c p => some (inOrNotIn c p.1 p.2)) cur

/-- The value/condition pairs a query field accumulates from a
selection. -/
def fieldPairs (Q : SetFilter → Bool) (val : SetFilter → α) (l : List SetFilter) :
    List (α × Bool) :=
  (l.filter Q).map (fun f => (val f, f.condition))

/-- Last-write-wins fold of the Hidden case. -/
def hidFold (h0 : Option Bool) (vs : List SetFilter) : Option Bool :=
  vs.foldl (fun _ f => some (f.toFilter.value == "true")) h0

theorem isLocationF_iff (f : SetFilter) :
    isLocationF f = true ↔ f.toFilter.type = FilterType.Location := by
  cases h : f.toFilter.type <;> simp [isLocationF, h]

theorem isTagF_iff (f : SetFilter) :
    isTagF f = true ↔ f.toFilter.type = FilterType.Tag := by
  cases h : f.toFilter.type <;> simp [isTagF, h]

theorem isKindF_iff (f : SetFilter) :
    isKindF f = true ↔ f.toFilter.type = FilterType.Kind := by
  cases h : f.toFilter.type <;> simp [isKindF, h]

theorem isCategoryF_iff (f : SetFilter) :
    isCategoryF f = true ↔ f.toFilter.type = FilterType.Category := by
  cases h : f.toFilter.type <;> simp [isCategoryF, h]

theorem isHiddenF_iff (f : SetFilter) :
    isHiddenF f = true ↔ f.toFilter.type = FilterType.Hidden := by
  cases h : f.toFilter.type <;> simp [isHiddenF, h]

theorem fold_locations (l : List SetFilter) :
    ∀ acc : FilePathFilterArgs × ObjectFilterArgs,
    (l.foldl applyFilter acc).1.locations
      = accFold acc.1.locations
          (fieldPairs isLocationF (fun f => parseIntJS f.toFilter.value) l) := by
  induction l with
  | nil => intro acc; rfl
  | cons f t ih =>
    intro acc
    cases htype : f.toFilter.type <;>
      simp [List.foldl_cons, fieldPairs, List.filter_cons, isLocationF, htype,
        applyFilter, ih, accFold]

theorem fold_tags (l : List SetFilter) :
    ∀ acc : FilePathFilterArgs × ObjectFilterArgs,
    (l.foldl applyFilter acc).2.tags
      = accFold acc.2.tags
          (fieldPairs isTagF (fun f => parseIntJS f.toFilter.value) l) := by
  induction l with
  | nil => intro acc; rfl
  | cons f t ih =>
    intro acc
    cases htype : f.toFilter.type <;>
      simp [List.foldl_cons, fieldPairs, List.filter_cons, isTagF, htype,
        applyFilter, ih, accFold]

theorem fold_kind (l : List SetFilter) :
    ∀ acc : FilePathFilterArgs × ObjectFilterArgs,
    (l.foldl applyFilter acc).2.kind
      = accFold acc.2.kind
          (fieldPairs isKindF (fun f => parseIntJS f.toFilter.value) l) := by
  induction l with
  | nil => intro acc; rfl
  | cons f t ih =>
    intro acc
    cases htype : f.toFilter.type <;>
      simp [List.foldl_cons, fieldPairs, List.filter_cons, isKindF, htype,
        applyFilter, ih, accFold]

theorem fold_category (l : List SetFilter) :
    ∀ acc : FilePathFilterArgs × ObjectFilterArgs,
    (l.foldl applyFilter acc).2.category
      = accFold acc.2.category
          (fieldPairs isCategoryF (fun f => f.toFilter.value) l) := by
  induction l with
  | nil => intro acc; rfl
  | cons f t ih =>
    intro acc
    cases htype : f.toFilter.type <;>
      simp [List.foldl_cons, fieldPairs, List.filter_cons, isCategoryF, htype,
        applyFilter, ih, accFold]

theorem fold_hidden (l : List SetFilter) :
    ∀ acc : FilePathFilterArgs × ObjectFilterArgs,
    (l.foldl applyFilter acc).1.hidden = hidFold acc.1.hidden (l.filter isHiddenF) := by
  induction l with
  | nil => intro acc; rfl
  | cons f t ih =>
    intro acc
    cases htype : f.toFilter.type <;>
      simp [List.foldl_cons, List.filter_cons, isHiddenF, htype, applyFilter, ih, hidFold]

theorem fold_object (l : List SetFilter) :
    ∀ acc : FilePathFilterArgs × ObjectFilterArgs,
    (l.foldl applyFilter acc).1.object = acc.1.object := by
  induction l with
  | nil => intro acc; rfl
  | cons f t ih =>
    intro acc
    cases htype : f.toFilter.type <;>
      simp [List.foldl_cons, htype, applyFilter, ih]

theorem mfqp_snd (l : List SetFilter) :
    (mapFiltersToQueryParams l).2 = (l.foldl applyFilter (emptyPath, emptyObject)).2 := rfl

theorem mfqp_locations (l : List SetFilter) :
    (mapFiltersToQueryParams l).1.locations
      = (l.foldl applyFilter (emptyPath, emptyObject)).1.locations := by
  simp only [mapFiltersToQueryParams]
  split <;> rfl

theorem mfqp_hidden (l : List SetFilter) :
    (mapFiltersToQueryParams l).1.hidden
      = (l.foldl applyFilter (emptyPath, emptyObject)).1.hidden := by
  simp only [mapFiltersToQueryParams]
  split <;> rfl

theorem mfqp_object (l : List SetFilter) :
    (mapFiltersToQueryParams l).1.object
      = if objectIsEmpty (l.foldl applyFilter (emptyPath, emptyObject)).2 then none
        else some ((l.foldl applyFilter (emptyPath, emptyObject)).2) := by
  simp only [mapFiltersToQueryParams]
  split
  · rw [fold_object]
    rfl
  · rfl

/-! ## Permutation equivalence of accumulated fields -/

/-- Two optional accumulators agree up to reordering of their list. -/
def iooEquiv : Option (InOrNotIn α) → Option (InOrNotIn α) → Prop
  | none, none => True
  | some (.isIn l1), some (.isIn l2) => l1.Perm l2
  | some (.notIn l1), some (.notIn l2) => l1.Perm l2
  | _, _ => False

theorem iooEquiv_none (a b : Option (InOrNotIn α)) (h : iooEquiv a b) :
    a = none ↔ b = none := by
  cases a with
  | none =>
    cases b with
    | none => simp
    | some x => cases x <;> exact h.elim
  | some x =>
    cases b with
    | none => cases x <;> exact h.elim
    | some y =>
      cases x with
      | isIn l1 => cases y <;> simp
      | notIn l1 => cases y <;> simp

theorem accFold_isIn (ps : List (α × Bool)) :
    ∀ vs : List α, (∀ p ∈ ps, p.2 = true) →
    accFold (some (InOrNotIn.isIn vs)) ps
      = some (InOrNotIn.isIn (vs ++ ps.map Prod.fst)) := by
  induction ps with
  | nil => intro vs _; simp [accFold]
  | cons p t ih =>
    intro vs h
    have hp : p.2 = true := h p (List.mem_cons_self _ _)
    have hstep : accFold (some (InOrNotIn.isIn vs)) (p :: t)
        = accFold (some (InOrNotIn.isIn (vs ++ [p.1]))) t := by
      show accFold (some (inOrNotIn (some (InOrNotIn.isIn vs)) p.1 p.2)) t = _
      rw [hp]
      rfl
    rw [hstep, ih (vs ++ [p.1]) (fun q hq => h q (List.mem_cons_of_mem _ hq))]
    simp

theorem accFold_notIn (ps : List (α × Bool)) :
    ∀ vs : List α, (∀ p ∈ ps, p.2 = false) →
    accFold (some (InOrNotIn.notIn vs)) ps
      = some (InOrNotIn.notIn (vs ++ ps.map Prod.fst)) := by
  induction ps with
  | nil => intro vs _; simp [accFold]
  | cons p t ih =>
    intro vs h
    have hp : p.2 = false := h p (List.mem_cons_self _ _)
    have hstep : accFold (some (InOrNotIn.notIn vs)) (p :: t)
        = accFold (some (InOrNotIn.notIn (vs ++ [p.1]))) t := by
      show accFold (some (inOrNotIn (some (InOrNotIn.notIn vs)) p.1 p.2)) t = _
      rw [hp]
      rfl
    rw [hstep, ih (vs ++ [p.1]) (fun q hq => h q (List.mem_cons_of_mem _ hq))]
    simp

theorem accFold_none_uniform (c : Bool) (ps : List (α × Bool))
    (hps : ∀ p ∈ ps, p.2 = c) (hne : ps ≠ []) :
    accFold none ps
      = some (if c then InOrNotIn.isIn (ps.map Prod.fst)
          else InOrNotIn.notIn (ps.map Prod.fst)) := by
  cases ps with
  | nil => cases hne rfl
  | cons p t =>
    have hp : p.2 = c := hps p (List.mem_cons_self _ _)
    have ht : ∀ q ∈ t, q.2 = c := fun q hq => hps q (List.mem_cons_of_mem _ hq)
    cases c with
    | true =>
      have hstep : accFold (none : Option (InOrNotIn α)) (p :: t)
          = accFold (some (InOrNotIn.isIn [p.1])) t := by
        show accFold (some (inOrNotIn none p.1 p.2)) t = _
        rw [hp]
        rfl
      rw [hstep, accFold_isIn t [p.1] ht]
      simp
    | false =>
      have hstep : accFold (none : Option (InOrNotIn α)) (p :: t)
          = accFold (some (InOrNotIn.notIn [p.1])) t := by
        show accFold (some (inOrNotIn none p.1 p.2)) t = _
        rw [hp]
        rfl
      rw [hstep, accFold_notIn t [p.1] ht]
      simp

theorem accFold_equiv (c : Bool) (ps qs : List (α × Bool)) (hperm : ps.Perm qs)
    (hps : ∀ p ∈ ps, p.2 = c) :
    iooEquiv (accFold none ps) (accFold none qs) := by
  by_cases hn : ps = []
  · subst hn
    rw [List.Perm.eq_nil hperm.symm]
    exact trivial
  · have hq : ∀ p ∈ qs, p.2 = c := fun p hp => hps p (hperm.mem_iff.2 hp)
    have hqn : qs ≠ [] := fun h => hn (List.Perm.eq_nil (h ▸ hperm))
    rw [accFold_none_uniform c ps hps hn, accFold_none_uniform c qs hq hqn]
    cases c with
    | true => exact hperm.map Prod.fst
    | false => exact hperm.map Prod.fst

theorem fieldPairs_equiv (Q : SetFilter → Bool) (val : SetFilter → α)
    (l1 l2 : List SetFilter) (hperm : l1.Perm l2)
    (hc : ∀ f ∈ l1, ∀ g ∈ l1, Q f = true → Q g = true → f.condition = g.condition) :
    iooEquiv (accFold none (fieldPairs Q val l1)) (accFold none (fieldPairs Q val l2)) := by
  have hpairs : (fieldPairs Q val l1).Perm (fieldPairs Q val l2) :=
    (hperm.filter Q).map _
  cases hfilt : l1.filter Q with
  | nil =>
    have h1 : fieldPairs Q val l1 = [] := by simp [fieldPairs, hfilt]
    have h2 : fieldPairs Q val l2 = [] := List.Perm.eq_nil (h1 ▸ hpairs).symm
    rw [h1, h2]
    exact trivial
  | cons f0 rest =>
    have hf0 : f0 ∈ l1.filter Q := by
      rw [hfilt]
      exact List.mem_cons_self _ _
    refine accFold_equiv f0.condition _ _ hpairs ?_
    intro p hp
    rcases List.mem_map.1 hp with ⟨g, hg, rfl⟩
    show g.condition = f0.condition
    exact hc g (List.mem_filter.1 hg).1 f0 (List.mem_filter.1 hf0).1
      (List.mem_filter.1 hg).2 (List.mem_filter.1 hf0).2

theorem hidFold_last (vs : List SetFilter) :
    ∀ h0 : Option Bool,
    hidFold h0 vs
      = match vs.getLast? with
        | none => h0
        | some f => some (f.toFilter.value == "true") := by
  induction vs with
  | nil => intro h0; rfl
  | cons f t ih =>
    intro h0
    cases t with
    | nil => rfl
    | cons g s =>
      have hstep : hidFold h0 (f :: g :: s)
          = hidFold (some (f.toFilter.value == "true")) (g :: s) := rfl
      rw [hstep, ih (some (f.toFilter.value == "true")), List.getLast?_cons_cons]
      cases hl : (g :: s).getLast? with
      | none =>
        exact absurd hl (by simp [List.getLast?_eq_none_iff])
      | some x => rfl

theorem objectIsEmpty_iff (o : ObjectFilterArgs) :
    objectIsEmpty o = true ↔ o.tags = none ∧ o.kind = none ∧ o.category = none := by
  obtain ⟨t, k, c⟩ := o
  cases t <;> cases k <;> cases c <;> simp [objectIsEmpty]

theorem objectIsEmpty_congr (o1 o2 : ObjectFilterArgs)
    (ht : iooEquiv o1.tags o2.tags) (hk : iooEquiv o1.kind o2.kind)
    (hc : iooEquiv o1.category o2.category) :
    objectIsEmpty o1 = objectIsEmpty o2 := by
  rw [Bool.eq_iff_iff, objectIsEmpty_iff, objectIsEmpty_iff]
  exact and_congr (iooEquiv_none _ _ ht)
    (and_congr (iooEquiv_none _ _ hk) (iooEquiv_none _ _ hc))

theorem getLast?_some_mem {A : Type} (l : List A) (x : A) (h : l.getLast? = some x) :
    x ∈ l := by
  have hne : l ≠ [] := by
    intro he
    subst he
    exact absurd h (by simp)
  rw [List.getLast?_eq_getLast_of_ne_nil hne] at h
  injection h with h2
  rw [← h2]
  exact List.getLast_mem hne

def hidA : SetFilter := ⟨⟨.Hidden, "Hidden", "true", none⟩, true, true⟩

def hidB : SetFilter := ⟨⟨.Hidden, "Hidden", "false", none⟩, true, true⟩

def loc1SF : SetFilter := ⟨⟨.Location, "L", "1", none⟩, true, true⟩

def tag3SF : SetFilter := ⟨⟨.Tag, "Work", "3", none⟩, true, true⟩

/-! ## Claim C5 -/

/-- Claim C5 counterexample: two distinct Hidden filters (values `"true"` and
`"false"`) have distinct composite keys, so both can sit in the
Selection; permuting them flips the derived `hidden` flag, so the
output object is not permutation-invariant as claimed. -/
theorem C5_permutation_changes_output :
    [hidA, hidB].Perm [hidB, hidA]
    ∧ mapFiltersToQueryParams [hidA, hidB] ≠ mapFiltersToQueryParams [hidB, hidA]
    ∧ (mapFiltersToQueryParams [hidA, hidB]).1.hidden = some false
    ∧ (mapFiltersToQueryParams [hidB, hidA]).1.hidden = some true := by
  decide

/-- Claim C5, amended: permuting the selection list preserves the derived
output up to reordering of the accumulated lists — the `hidden` flag is
equal, each of the four `in`/`notIn` accumulators is the same accumulator
kind with a permuted list (hence identical membership per id), and
`object` nesting agrees — provided filters feeding the same accumulator
share one condition and all Hidden filters share one value; the
counterexample shows the claim fails without those provisos. -/
theorem C5_order_independence_amended (l1 l2 : List SetFilter) (hperm : l1.Perm l2)
    (hcond : ∀ f ∈ l1, ∀ g ∈ l1, f.toFilter.type = g.toFilter.type →
      f.toFilter.type ≠ FilterType.Hidden → f.condition = g.condition)
    (hhv : ∀ f ∈ l1, ∀ g ∈ l1, f.toFilter.type = FilterType.Hidden →
      g.toFilter.type = FilterType.Hidden → f.toFilter.value = g.toFilter.value) :
    (mapFiltersToQueryParams l1).1.hidden = (mapFiltersToQueryParams l2).1.hidden
    ∧ iooEquiv (mapFiltersToQueryParams l1).1.locations
        (mapFiltersToQueryParams l2).1.locations
    ∧ iooEquiv (mapFiltersToQueryParams l1).2.tags (mapFiltersToQueryParams l2).2.tags
    ∧ iooEquiv (mapFiltersToQueryParams l1).2.kind (mapFiltersToQueryParams l2).2.kind
    ∧ iooEquiv (mapFiltersToQueryParams l1).2.category
        (mapFiltersToQueryParams l2).2.category
    ∧ ((mapFiltersToQueryParams l1).1.object = none
        ↔ (mapFiltersToQueryParams l2).1.object = none) := by
  have hloc : iooEquiv (mapFiltersToQueryParams l1).1.locations
      (mapFiltersToQueryParams l2).1.locations := by
    rw [mfqp_locations, mfqp_locations, fold_locations, fold_locations]
    exact fieldPairs_equiv isLocationF _ l1 l2 hperm (fun f hf g hg hQf hQg =>
      hcond f hf g hg
        (((isLocationF_iff f).1 hQf).trans ((isLocationF_iff g).1 hQg).symm)
        (by rw [(isLocationF_iff f).1 hQf]; decide))
  have htag : iooEquiv (mapFiltersToQueryParams l1).2.tags
      (mapFiltersToQueryParams l2).2.tags := by
    rw [mfqp_snd, mfqp_snd, fold_tags, fold_tags]
    exact fieldPairs_equiv isTagF _ l1 l2 hperm (fun f hf g hg hQf hQg =>
      hcond f hf g hg
        (((isTagF_iff f).1 hQf).trans ((isTagF_iff g).1 hQg).symm)
        (by rw [(isTagF_iff f).1 hQf]; decide))
  have hkind : iooEquiv (mapFiltersToQueryParams l1).2.kind
      (mapFiltersToQueryParams l2).2.kind := by
    rw [mfqp_snd, mfqp_snd, fold_kind, fold_kind]
    exact fieldPairs_equiv isKindF _ l1 l2 hperm (fun f hf g hg hQf hQg =>
      hcond f hf g hg
        (((isKindF_iff f).1 hQf).trans ((isKindF_iff g).1 hQg).symm)
        (by rw [(isKindF_iff f).1 hQf]; decide))
  have hcat : iooEquiv (mapFiltersToQueryParams l1).2.category
      (mapFiltersToQueryParams l2).2.category := by
    rw [mfqp_snd, mfqp_snd, fold_category, fold_category]
    exact fieldPairs_equiv isCategoryF _ l1 l2 hperm (fun f hf g hg hQf hQg =>
      hcond f hf g hg
        (((isCategoryF_iff f).1 hQf).trans ((isCategoryF_iff g).1 hQg).symm)
        (by rw [(isCategoryF_iff f).1 hQf]; decide))
  have hhid : (mapFiltersToQueryParams l1).1.hidden
      = (mapFiltersToQueryParams l2).1.hidden := by
    rw [mfqp_hidden, mfqp_hidden, fold_hidden, fold_hidden, hidFold_last, hidFold_last]
    have hpermf : (l1.filter isHiddenF).Perm (l2.filter isHiddenF) := hperm.filter _
    cases h1 : (l1.filter isHiddenF).getLast? with
    | none =>
      have he1 : l1.filter isHiddenF = [] := List.getLast?_eq_none_iff.1 h1
      have he2 : l2.filter isHiddenF = [] := List.Perm.eq_nil (he1 ▸ hpermf.symm)
      rw [he2]
      rfl
    | some fl1 =>
      have hne1 : l1.filter isHiddenF ≠ [] := by
        intro he
        rw [he] at h1
        exact absurd h1 (by simp)
      have hne2 : l2.filter isHiddenF ≠ [] :=
        fun he => hne1 (List.Perm.eq_nil (he ▸ hpermf))
      cases h2 : (l2.filter isHiddenF).getLast? with
      | none => exact absurd (List.getLast?_eq_none_iff.1 h2) hne2
      | some fl2 =>
        have hm1 := List.mem_filter.1 (getLast?_some_mem _ _ h1)
        have hm2 := List.mem_filter.1 (getLast?_some_mem _ _ h2)
        have hv : fl1.toFilter.value = fl2.toFilter.value :=
          hhv fl1 hm1.1 fl2 (hperm.mem_iff.2 hm2.1)
            ((isHiddenF_iff _).1 hm1.2) ((isHiddenF_iff _).1 hm2.2)
        show some (fl1.toFilter.value == "true") = some (fl2.toFilter.value == "true")
        rw [hv]
  have hobj : (mapFiltersToQueryParams l1).1.object = none
      ↔ (mapFiltersToQueryParams l2).1.object = none := by
    rw [mfqp_object, mfqp_object]
    have hemp : objectIsEmpty (l1.foldl applyFilter (emptyPath, emptyObject)).2
        = objectIsEmpty (l2.foldl applyFilter (emptyPath, emptyObject)).2 :=
      objectIsEmpty_congr _ _ htag hkind hcat
    rw [hemp]
    by_cases hb : objectIsEmpty ((l2.foldl applyFilter (emptyPath, emptyObject)).2) = true
    · simp [hb]
    · simp [hb]
  exact ⟨hhid, hloc, htag, hkind, hcat, hobj⟩

/-- Claim C5 witness: a Location and a Tag filter swapped in the selection
give equivalent accumulated location lists. -/
theorem C5_order_independence_amended_witness :
    iooEquiv (mapFiltersToQueryParams [loc1SF, tag3SF]).1.locations
      (mapFiltersToQueryParams [tag3SF, loc1SF]).1.locations :=
  (C5_order_independence_amended [loc1SF, tag3SF] [tag3SF, loc1SF]
    (by decide) (by decide) (by decide)).2.1

/-! ## Claim C6 -/

/-- Claim C6: query-shape postconditions of `mapFiltersToQueryParams`.  With
no Hidden filter the `hidden` flag is unset; with Hidden filters the
last one wins and sets `hidden` to `true` exactly when its value is the
string `"true"` and to `false` otherwise; and the object accumulator is
nested under `queryParams.object` exactly when some object field was
populated. -/
theorem C6_query_shape (l : List SetFilter) :
    (l.filter isHiddenF = [] → (mapFiltersToQueryParams l).1.hidden = none)
    ∧ (∀ f, (l.filter isHiddenF).getLast? = some f →
        (mapFiltersToQueryParams l).1.hidden = some (f.toFilter.value == "true"))
    ∧ ((mapFiltersToQueryParams l).1.object = none
        ↔ objectIsEmpty (mapFiltersToQueryParams l).2 = true)
    ∧ ((mapFiltersToQueryParams l).1.object = some (mapFiltersToQueryParams l).2
        ↔ objectIsEmpty (mapFiltersToQueryParams l).2 = false) := by
  refine ⟨?_, ?_, ?_, ?_⟩
  · intro hf
    rw [mfqp_hidden, fold_hidden, hf]
    rfl
  · intro f hf
    rw [mfqp_hidden, fold_hidden, hidFold_last, hf]
  · rw [mfqp_object, mfqp_snd]
    by_cases hb : objectIsEmpty ((l.foldl applyFilter (emptyPath, emptyObject)).2) = true
    · simp [hb]
    · simp [hb]
  · rw [mfqp_object, mfqp_snd]
    by_cases hb : objectIsEmpty ((l.foldl applyFilter (emptyPath, emptyObject)).2) = true
    · simp [hb]
    · simp [hb]

/-- Claim C6 witness: a single Hidden filter with value `"true"` yields
`hidden = some true` and no nested object. -/
theorem C6_query_shape_witness :
    (mapFiltersToQueryParams [hidA]).1.hidden = some true
    ∧ (mapFiltersToQueryParams [hidA]).1.object = none := by
  have h := C6_query_shape [hidA]
  exact ⟨(h.2.1 hidA (by decide)).trans (by decide), h.2.2.1.2 (by decide)⟩

/-! ## Claim C7 -/

theorem leadsWith_self (l : List Char) : leadsWith l l = true := by
  induction l with
  | nil => rfl
  | cons c t ih => simp [leadsWith, ih]

theorem hasSub_self (l : List Char) : hasSub l l = true := by
  cases l with
  | nil => rfl
  | cons c t => simp [hasSub, leadsWith_self]

theorem strIncludes_self (k : String) : strIncludes k k = true :=
  hasSub_self _

theorem searchRegisteredFilters_mem_iff (st : Store) (q k : String) (f : Filter)
    (hn : keysNodup st.registeredFilters) :
    (k, f) ∈ searchRegisteredFilters st q
      ↔ q ≠ "" ∧ (k, f) ∈ st.registeredFilters ∧ strIncludes k q = true := by
  by_cases hq : q = ""
  · subst hq
    simp [searchRegisteredFilters]
  · unfold searchRegisteredFilters
    rw [if_neg hq, List.mem_filterMap]
    constructor
    · rintro ⟨a, ha, hg⟩
      cases hl : mapLookup a st.registeredFilters with
      | none =>
        rw [hl] at hg
        cases hg
      | some fa =>
        rw [hl] at hg
        injection hg with hg2
        injection hg2 with hk2 hf2
        subst hk2
        subst hf2
        refine ⟨hq, mapLookup_mem _ _ _ hl, ?_⟩
        exact (List.mem_filter.1 ha).2
    · rintro ⟨-, hmem, hinc⟩
      have hl : mapLookup k st.registeredFilters = some f :=
        mem_mapLookup k f _ hn hmem
      refine ⟨k, ?_, by rw [hl]; rfl⟩
      exact List.mem_filter.2 ⟨List.mem_map.2 ⟨(k, f), hmem, rfl⟩, hinc⟩

/-- Claim C7: the `searchRegisteredFilters` contract.  The empty query returns
the empty list; a non-empty query returns exactly the registered
entries whose key contains the query as a case-insensitive substring;
in particular querying with an existing key itself returns that
entry. -/
theorem C7_searchRegisteredFilters_contract (st : Store) (q : String) :
    searchRegisteredFilters st "" = []
    ∧ (keysNodup st.registeredFilters → ∀ k f,
        ((k, f) ∈ searchRegisteredFilters st q
          ↔ q ≠ "" ∧ (k, f) ∈ st.registeredFilters ∧ strIncludes k q = true))
    ∧ (keysNodup st.registeredFilters → ∀ k f,
        (k, f) ∈ st.registeredFilters → k ≠ "" →
          (k, f) ∈ searchRegisteredFilters st k) := by
  refine ⟨rfl, fun hn k f => searchRegisteredFilters_mem_iff st q k f hn, ?_⟩
  intro hn k f hmem hk
  exact (searchRegisteredFilters_mem_iff st k k f hn).2 ⟨hk, hmem, strIncludes_self k⟩

/-- Claim C7 witness: the sub-query `"TAL"` finds the `"stale"` registration
case-insensitively, and the empty query finds nothing. -/
theorem C7_searchRegisteredFilters_contract_witness :
    searchRegisteredFilters staleStore "" = []
    ∧ ("stale", homeFilter) ∈ searchRegisteredFilters staleStore "TAL" := by
  constructor
  · exact (C7_searchRegisteredFilters_contract staleStore "TAL").1
  · refine ((C7_searchRegisteredFilters_contract staleStore "TAL").2.1 ?_ "stale"
      homeFilter).2 ⟨by decide, by decide, by decide⟩
    show ((staleStore.registeredFilters).map Prod.fst).Nodup
    decide

end Spacedrive
